import Mathlib

/- Verification development for a neural style-transfer engine
   (shallow embedding of src/src/main.py).

   Tensors are modelled over ℚ: a rank-4 feature map is a `Tensor4`
   (dimensions as data, entries as a function on `Fin` indices).
   The functions below are direct translations of the Python source;
   PyTorch library semantics (tensor `view`, `torch.mm`, `F.mse_loss`
   with mean reduction, `nn.Module.__setattr__`, L-BFGS closure
   evaluation counts) are embedded explicitly where a claim depends
   on them. -/

/-- A rank-4 feature map of shape `[a, b, c, d]` with rational entries
(batch, channels, height, width). -/
structure Tensor4 where
  a : ℕ
  b : ℕ
  c : ℕ
  d : ℕ
  data : Fin a → Fin b → Fin c → Fin d → ℚ

/-- `input.view(a * b, c * d)` from `gram_matrix` (main.py line 71):
row-major reshape of a contiguous `[a, b, c, d]` tensor into an
`[a*b, c*d]` matrix, so entry `(m, n)` of the reshaped matrix is entry
`(m / b, m % b, n / d, n % d)` of the original tensor. -/
def Tensor4.features (t : Tensor4) : Matrix (Fin (t.a * t.b)) (Fin (t.c * t.d)) ℚ :=
  fun m n =>
    have hb : 0 < t.b := by
      rcases Nat.eq_zero_or_pos t.b with h | h
      · exact absurd m.isLt (by simp [h])
      · exact h
    have hd : 0 < t.d := by
      rcases Nat.eq_zero_or_pos t.d with h | h
      · exact absurd n.isLt (by simp [h])
      · exact h
    t.data ⟨m.val / t.b, Nat.div_lt_of_lt_mul (lt_of_lt_of_eq m.isLt (Nat.mul_comm t.a t.b))⟩
      ⟨m.val % t.b, Nat.mod_lt _ hb⟩
      ⟨n.val / t.d, Nat.div_lt_of_lt_mul (lt_of_lt_of_eq n.isLt (Nat.mul_comm t.c t.d))⟩
      ⟨n.val % t.d, Nat.mod_lt _ hd⟩

/-- `gram_matrix` (main.py lines 69-74): reshape the input into
`features = input.view(a * b, c * d)`, form `G = torch.mm(features,
features.t())`, and return `G.div_(a * b * c * d)` (the in-place
division acts on the freshly allocated product `G`, so the input is
never mutated and the function is pure). -/
def gram_matrix (t : Tensor4) : Matrix (Fin (t.a * t.b)) (Fin (t.a * t.b)) ℚ :=
  let features := t.features
  let G := features * features.transpose
  G.map (fun x => x / ((t.a * t.b * t.c * t.d : ℕ) : ℚ))

/-- Modelled from the spec's words, for comparison with `gram_matrix`:
"reshape into a 2D matrix of shape [a·b, c·d], compute the matrix
product with its own transpose (yielding [a·b, a·b]), and divide every
entry by a·b·c·d" — written entrywise. -/
def gram_matrix_spec (t : Tensor4) : Matrix (Fin (t.a * t.b)) (Fin (t.a * t.b)) ℚ :=
  fun i j => (∑ k, t.features i k * t.features j k) / ((t.a * t.b * t.c * t.d : ℕ) : ℚ)

/-- Claim C5: for every feature map of shape `[a, b, c, d]`,
`gram_matrix` returns the matrix obtained by reshaping the input into
an `[a*b, c*d]` matrix `F`, forming `F * Fᵀ` (shape `[a*b, a*b]`), and
dividing every entry by `a*b*c*d`; in the embedding it is a pure
function of its input. -/
theorem gram_matrix_matches_spec (t : Tensor4) : gram_matrix t = gram_matrix_spec t := by
  funext i j
  simp [gram_matrix, gram_matrix_spec, Matrix.map_apply, Matrix.mul_apply,
    Matrix.transpose_apply]

/-- Claim C6: the matrix returned by `gram_matrix` is symmetric:
`G[i][j] = G[j][i]` for all valid indices. -/
theorem gram_matrix_symm (t : Tensor4) (i j : Fin (t.a * t.b)) :
    gram_matrix t i j = gram_matrix t j i := by
  simp only [gram_matrix, Matrix.map_apply, Matrix.mul_apply, Matrix.transpose_apply]
  congr 1
  exact Finset.sum_congr rfl fun k _ => mul_comm _ _

/-- `F.mse_loss` with the default mean reduction, for two rank-4
tensors of identical shape `[a, b, c, d]`: the sum of squared
entrywise differences divided by the element count. -/
def mse4 (a b c d : ℕ) (x y : Fin a → Fin b → Fin c → Fin d → ℚ) : ℚ :=
  (∑ i, ∑ j, ∑ k, ∑ l, (x i j k l - y i j k l) ^ 2) / ((a * b * c * d : ℕ) : ℚ)

/-- `ContentLoss` (main.py lines 60-67): stores the detached target
feature map captured at construction time and, after a forward pass,
the recorded loss `self.loss` (`none` before the first forward). The
probe's target has shape `[a, b, c, d]`; per claim C7 the forward pass
is considered on inputs of that same shape. -/
structure ContentLoss (a b c d : ℕ) where
  target : Fin a → Fin b → Fin c → Fin d → ℚ
  loss : Option ℚ

/-- `ContentLoss.__init__`: capture the detached target; no loss is
recorded yet. -/
def ContentLoss.ofTarget {a b c d : ℕ} (t : Fin a → Fin b → Fin c → Fin d → ℚ) :
    ContentLoss a b c d :=
  ⟨t, none⟩

/-- `ContentLoss.forward` (main.py lines 65-67): set
`self.loss = F.mse_loss(input, self.target)` and return `input`. The
result pairs the updated probe state with the returned activation. -/
def ContentLoss.forward {a b c d : ℕ} (cl : ContentLoss a b c d)
    (input : Fin a → Fin b → Fin c → Fin d → ℚ) :
    ContentLoss a b c d × (Fin a → Fin b → Fin c → Fin d → ℚ) :=
  ({ cl with loss := some (mse4 a b c d input cl.target) }, input)

/-- `F.mse_loss` with mean reduction for two square matrices of the
same size `n × n`. -/
def mseMat (n : ℕ) (x y : Matrix (Fin n) (Fin n) ℚ) : ℚ :=
  (∑ i, ∑ j, (x i j - y i j) ^ 2) / ((n * n : ℕ) : ℚ)

/-- `StyleLoss` (main.py lines 76-84): stores the detached Gram matrix
of the target feature map. Only the batch and channel counts of the
captured feature survive in the state (they fix the Gram matrix's
side length `ta * tb`). -/
structure StyleLoss where
  ta : ℕ
  tb : ℕ
  target : Matrix (Fin (ta * tb)) (Fin (ta * tb)) ℚ

/-- `StyleLoss.__init__`: `self.target = gram_matrix(target_feature).detach()`. -/
def StyleLoss.ofFeature (tf : Tensor4) : StyleLoss :=
  ⟨tf.a, tf.b, gram_matrix tf⟩

/-- `StyleLoss.forward` (main.py lines 81-84): compute
`G = gram_matrix(input)` and `self.loss = F.mse_loss(G, self.target)`,
returning `input` unchanged. `F.mse_loss` requires the two matrices to
have equal shape, i.e. `input.a * input.b = ta * tb`; a mismatch is a
runtime shape error, modelled as `none`. -/
def StyleLoss.forward (sl : StyleLoss) (input : Tensor4) : Option (Tensor4 × ℚ) :=
  if h : input.a * input.b = sl.ta * sl.tb then
    some (input,
      mseMat (sl.ta * sl.tb)
        (fun i j => gram_matrix input (Fin.cast h.symm i) (Fin.cast h.symm j))
        sl.target)
  else
    none

/-- Claim C7: for every input activation `x` of the same shape as the
stored target, `ContentLoss.forward` returns `x` unchanged, its only
state change is recording the loss `mean((x - target)^2)`, and when
`x` equals the target the recorded loss is exactly `0`. -/
theorem contentLoss_forward_spec {a b c d : ℕ} (cl : ContentLoss a b c d)
    (x : Fin a → Fin b → Fin c → Fin d → ℚ) :
    (cl.forward x).2 = x ∧
    (cl.forward x).1.loss = some (mse4 a b c d x cl.target) ∧
    (cl.forward x).1.target = cl.target ∧
    (x = cl.target → (cl.forward x).1.loss = some 0) := by
  refine ⟨rfl, rfl, rfl, fun hx => ?_⟩
  simp [ContentLoss.forward, mse4, hx]

/-- Witness for C7 at a concrete probe and input. -/
theorem contentLoss_forward_spec_witness :
    ((ContentLoss.ofTarget (fun _ _ _ _ => (0 : ℚ)) : ContentLoss 1 1 1 1).forward
        (fun _ _ _ _ => (0 : ℚ))).1.loss = some 0 :=
  (contentLoss_forward_spec (ContentLoss.ofTarget (fun _ _ _ _ => (0 : ℚ)))
    (fun _ _ _ _ => (0 : ℚ))).2.2.2 rfl

/-- Claim C10: `StyleLoss.forward` succeeds and records a well-defined
loss for every input activation whose batch and channel dimensions
match those of the captured target feature map, regardless of the
input's spatial dimensions (the Gram matrix's shape depends only on
`a * b`), and it returns the input unchanged. -/
theorem styleLoss_forward_total (sl : StyleLoss) (input : Tensor4)
    (ha : input.a = sl.ta) (hb : input.b = sl.tb) :
    ∃ l : ℚ, sl.forward input = some (input, l) := by
  have h : input.a * input.b = sl.ta * sl.tb := by rw [ha, hb]
  exact ⟨mseMat (sl.ta * sl.tb)
    (fun i j => gram_matrix input (Fin.cast h.symm i) (Fin.cast h.symm j)) sl.target,
    dif_pos h⟩

/-- Witness for C10: a style probe built from a `[1, 2, 3, 4]` feature
map accepts a `[1, 2, 5, 6]` input (same batch and channels, different
spatial size). -/
theorem styleLoss_forward_total_witness :
    ∃ l : ℚ,
      (StyleLoss.ofFeature ⟨1, 2, 3, 4, fun _ _ _ _ => 0⟩).forward
          ⟨1, 2, 5, 6, fun _ _ _ _ => 0⟩ =
        some (⟨1, 2, 5, 6, fun _ _ _ _ => 0⟩, l) :=
  styleLoss_forward_total (StyleLoss.ofFeature ⟨1, 2, 3, 4, fun _ _ _ _ => 0⟩)
    ⟨1, 2, 5, 6, fun _ _ _ _ => 0⟩ rfl rfl

/-- The kinds of stages that can appear in the pretrained network
handed to `get_style_model_and_loss` (`cnn.children()`): convolution,
ReLU (with its in-place flag), max-pooling, batch-norm, or any other
layer class (carried by its class name). -/
inductive Layer where
  | conv : Layer
  | relu : Bool → Layer
  | maxpool : Layer
  | bn : Layer
  | other : String → Layer
deriving DecidableEq

/-- Whether the walk in `get_style_model_and_loss` can classify this
layer (main.py lines 112-123: `Conv2d`, `ReLU`, `MaxPool2d`,
`BatchNorm2d`; everything else raises `ValueError`). -/
def Layer.recognized : Layer → Bool
  | .other _ => false
  | _ => true

/-- The class name used in the `ValueError` message. -/
def Layer.className : Layer → String
  | .conv => "Conv2d"
  | .relu _ => "ReLU"
  | .maxpool => "MaxPool2d"
  | .bn => "BatchNorm2d"
  | .other s => s

/-- A stage of the constructed pipeline (`model`): the initial
`Normalization` module, a named layer copied (for ReLU: rewritten to
`inplace=False`) from the pretrained network, or an injected loss
probe carrying the counter value used in its module name. -/
inductive Stage where
  | norm : Stage
  | layer : String → Layer → Stage
  | contentProbe : ℕ → Stage
  | styleProbe : ℕ → Stage
deriving DecidableEq

/-- Whether a pipeline stage is a loss probe
(`isinstance(model[i], ContentLoss) or isinstance(model[i], StyleLoss)`,
main.py line 140). -/
def Stage.isProbe : Stage → Bool
  | .contentProbe _ => true
  | .styleProbe _ => true
  | _ => false

/-- One step of the naming walk (main.py lines 112-123): given the
current convolution counter `i` and a layer, produce the updated
counter, the assigned name, and the (possibly rewritten) layer; `none`
when the layer is unrecognized and `ValueError` is raised. -/
def classifyLayer (i : ℕ) : Layer → Option (ℕ × String × Layer)
  | .conv => some (i + 1, "conv_" ++ toString (i + 1), .conv)
  | .relu _ => some (i, "relu_" ++ toString i, .relu false)
  | .maxpool => some (i, "maxpool_" ++ toString i, .maxpool)
  | .bn => some (i, "bn_" ++ toString i, .bn)
  | .other _ => none

/-- The `for layer in cnn.children()` loop of `get_style_model_and_loss`
(main.py lines 110-137), with the loop state made explicit: remaining
layers, convolution counter `i`, pipeline built so far, and the two
probe collections (each probe recorded by the counter value in its
name). Probe targets (the content/style activations) are captured by
evaluating the partial pipeline on fixed images; they do not affect
pipeline structure and are not carried here. -/
def buildLoop (contentLayers styleLayers : List String) :
    List Layer → ℕ → List Stage → List ℕ → List ℕ →
    Except String (List Stage × List ℕ × List ℕ)
  | [], _, model, styleLosses, contentLosses => .ok (model, styleLosses, contentLosses)
  | l :: rest, i, model, styleLosses, contentLosses =>
    match classifyLayer i l with
    | none => .error ("Unrecognized layer: " ++ l.className)
    | some (i', name, l') =>
      let model₁ := model ++ [Stage.layer name l']
      let model₂ := if name ∈ contentLayers then model₁ ++ [Stage.contentProbe i'] else model₁
      let contentLosses' :=
        if name ∈ contentLayers then contentLosses ++ [i'] else contentLosses
      let model₃ := if name ∈ styleLayers then model₂ ++ [Stage.styleProbe i'] else model₂
      let styleLosses' := if name ∈ styleLayers then styleLosses ++ [i'] else styleLosses
      buildLoop contentLayers styleLayers rest i' model₃ styleLosses' contentLosses'

/-- The backward scan of main.py lines 139-141: iterate `i` from
`len(model) - 1` down to `0` and stop at the first probe; when no
probe exists the Python loop exhausts with `i = 0`, modelled by
`none`. -/
def lastProbeIdx (model : List Stage) : Option ℕ :=
  (List.range model.length).reverse.find? (fun i => (model.getD i Stage.norm).isProbe)

/-- `model = model[:(i + 1)]` (main.py line 143): truncate at the last
probe, or — when the scan found no probe, leaving `i = 0` — keep only
the first stage. -/
def truncateModel (model : List Stage) : List Stage :=
  match lastProbeIdx model with
  | some i => model.take (i + 1)
  | none => model.take 1

/-- `get_style_model_and_loss` (main.py lines 102-145): start the
pipeline with the `Normalization` stage, walk the pretrained network's
layers appending renamed stages and injecting probes, then truncate
after the last probe. Returns `(model, style_losses, content_losses)`,
or the `ValueError` raised on an unrecognized layer. -/
def get_style_model_and_loss (cnn : List Layer)
    (contentLayers styleLayers : List String) :
    Except String (List Stage × List ℕ × List ℕ) :=
  match buildLoop contentLayers styleLayers cnn 0 [Stage.norm] [] [] with
  | .error e => .error e
  | .ok (model, styleLosses, contentLosses) =>
    .ok (truncateModel model, styleLosses, contentLosses)

/-- The sequence of stage names assigned during the walk (stopping at
an unrecognized layer, where the walk raises instead). -/
def walkNames : ℕ → List Layer → List String
  | _, [] => []
  | i, l :: rest =>
    match classifyLayer i l with
    | none => []
    | some (i', name, _) => name :: walkNames i' rest

/-- Helper: an unrecognized layer anywhere in the remaining walk makes
`buildLoop` raise, whatever the loop state. -/
lemma buildLoop_error_of_unrecognized (cLayers sLayers : List String) :
    ∀ (rest : List Layer) (i : ℕ) (model : List Stage) (sls cls : List ℕ),
      (∃ l ∈ rest, l.recognized = false) →
      ∃ e, buildLoop cLayers sLayers rest i model sls cls = .error e := by
  intro rest
  induction rest with
  | nil => rintro i model sls cls ⟨l, hl, _⟩; exact absurd hl (List.not_mem_nil l)
  | cons hd tl ih =>
    rintro i model sls cls ⟨l, hl, hrec⟩
    cases hd with
    | other s => exact ⟨_, rfl⟩
    | conv =>
      rcases List.mem_cons.mp hl with rfl | hl'
      · simp [Layer.recognized] at hrec
      · exact ih _ _ _ _ ⟨l, hl', hrec⟩
    | relu inplace =>
      rcases List.mem_cons.mp hl with rfl | hl'
      · simp [Layer.recognized] at hrec
      · exact ih _ _ _ _ ⟨l, hl', hrec⟩
    | maxpool =>
      rcases List.mem_cons.mp hl with rfl | hl'
      · simp [Layer.recognized] at hrec
      · exact ih _ _ _ _ ⟨l, hl', hrec⟩
    | bn =>
      rcases List.mem_cons.mp hl with rfl | hl'
      · simp [Layer.recognized] at hrec
      · exact ih _ _ _ _ ⟨l, hl', hrec⟩

/-- Claim C8: if the pretrained network contains a stage whose kind is
outside convolution / ReLU / max-pooling / batch-normalization, the
walk in `get_style_model_and_loss` raises the unrecognized-layer error
and no pipeline is returned. -/
theorem get_style_model_unrecognized_error (cnn : List Layer)
    (cLayers sLayers : List String) (h : ∃ l ∈ cnn, l.recognized = false) :
    ∃ e, get_style_model_and_loss cnn cLayers sLayers = .error e := by
  obtain ⟨e, he⟩ := buildLoop_error_of_unrecognized cLayers sLayers cnn 0 [Stage.norm] [] [] h
  exact ⟨e, by rw [get_style_model_and_loss, he]⟩

/-- Witness for C8: a network containing a dropout stage aborts. -/
theorem get_style_model_unrecognized_error_witness :
    ∃ e, get_style_model_and_loss [Layer.conv, Layer.other "Dropout"] ["conv_4"] ["conv_1"] =
      .error e :=
  get_style_model_unrecognized_error [Layer.conv, Layer.other "Dropout"] ["conv_4"] ["conv_1"]
    ⟨Layer.other "Dropout", by simp, rfl⟩

/-- Helper: when some stage of the pipeline is a probe, the truncation
of main.py lines 139-143 ends the pipeline at a probe. -/
lemma truncateModel_getLast_isProbe (model : List Stage)
    (hx : ∃ st ∈ model, st.isProbe = true) :
    ∃ p, (truncateModel model).getLast? = some p ∧ p.isProbe = true := by
  obtain ⟨st, hmem, hp⟩ := hx
  obtain ⟨idx, hidx, hst⟩ := List.mem_iff_getElem.mp hmem
  have hfound : ((List.range model.length).reverse.find?
      (fun i => (model.getD i Stage.norm).isProbe)).isSome := by
    refine List.find?_isSome.mpr ⟨idx, ?_, ?_⟩
    · rw [List.mem_reverse, List.mem_range]; exact hidx
    · rw [List.getD_eq_getElem?_getD, List.getElem?_eq_getElem hidx]
      simpa [hst] using hp
  obtain ⟨k, hk⟩ := Option.isSome_iff_exists.mp hfound
  have hkp : (model.getD k Stage.norm).isProbe = true := by
    have h2 := List.find?_some hk
    simpa using h2
  have hklt : k < model.length := by
    have := List.mem_of_find?_eq_some hk
    rw [List.mem_reverse, List.mem_range] at this
    exact this
  have htr : truncateModel model = model.take (k + 1) := by
    rw [truncateModel, lastProbeIdx, hk]
  refine ⟨model.getD k Stage.norm, ?_, hkp⟩
  rw [htr, List.getLast?_eq_getElem? (model.take (k + 1))]
  have hlen : (model.take (k + 1)).length = k + 1 :=
    List.length_take_of_le (Nat.succ_le_of_lt hklt)
  rw [hlen, Nat.add_sub_cancel, List.getElem?_take, if_pos (Nat.lt_succ_self k),
    List.getElem?_eq_getElem hklt, List.getD_eq_getElem?_getD,
    List.getElem?_eq_getElem hklt]
  rfl

/-- Helper: when no stage of the pipeline is a probe, the backward
scan exhausts with `i = 0` and the pipeline is cut to its first
stage. -/
lemma truncateModel_no_probe (model : List Stage)
    (h : ∀ st ∈ model, st.isProbe = false) :
    truncateModel model = model.take 1 := by
  have hnone : lastProbeIdx model = none := by
    rw [lastProbeIdx]
    refine List.find?_eq_none.mpr ?_
    intro i hi
    rw [List.mem_reverse, List.mem_range] at hi
    rw [List.getD_eq_getElem?_getD, List.getElem?_eq_getElem hi]
    simp [h model[i] (List.getElem_mem hi)]
  rw [truncateModel, hnone]

/-- Helper: the walk step equation in appended form, for a recognized
layer. -/
lemma buildLoop_cons (cLayers sLayers : List String) (hd : Layer) (tl : List Layer)
    (i : ℕ) (model : List Stage) (sls cls : List ℕ) (i' : ℕ) (name : String) (l' : Layer)
    (hcl : classifyLayer i hd = some (i', name, l')) :
    buildLoop cLayers sLayers (hd :: tl) i model sls cls =
      buildLoop cLayers sLayers tl i'
        (((model ++ [Stage.layer name l']) ++
            (if name ∈ cLayers then [Stage.contentProbe i'] else [])) ++
          (if name ∈ sLayers then [Stage.styleProbe i'] else []))
        (if name ∈ sLayers then sls ++ [i'] else sls)
        (if name ∈ cLayers then cls ++ [i'] else cls) := by
  rw [buildLoop, hcl]
  by_cases hcm : name ∈ cLayers <;> by_cases hsm : name ∈ sLayers <;>
    simp [hcm, hsm]

/-- Helper: every recorded probe index has its probe stage in the
pipeline `buildLoop` returns. -/
lemma buildLoop_probes_mem (cLayers sLayers : List String) :
    ∀ (rest : List Layer) (i : ℕ) (model : List Stage) (sls cls : List ℕ)
      (m : List Stage) (s c : List ℕ),
      buildLoop cLayers sLayers rest i model sls cls = .ok (m, s, c) →
      (∀ j ∈ sls, Stage.styleProbe j ∈ model) →
      (∀ j ∈ cls, Stage.contentProbe j ∈ model) →
      (∀ j ∈ s, Stage.styleProbe j ∈ m) ∧ ∀ j ∈ c, Stage.contentProbe j ∈ m := by
  intro rest
  induction rest with
  | nil =>
    intro i model sls cls m s c heq hs hc
    rw [buildLoop] at heq
    simp only [Except.ok.injEq, Prod.mk.injEq] at heq
    obtain ⟨rfl, rfl, rfl⟩ := heq
    exact ⟨hs, hc⟩
  | cons hd tl ih =>
    intro i model sls cls m s c heq hs hc
    rcases hcl : classifyLayer i hd with _ | ⟨i', name, l'⟩
    · rw [buildLoop, hcl] at heq
      exact absurd heq (by simp)
    · rw [buildLoop_cons cLayers sLayers hd tl i model sls cls i' name l' hcl] at heq
      refine ih i' _ _ _ m s c heq ?_ ?_
      · intro j hj
        by_cases hsm : name ∈ sLayers
        · rw [if_pos hsm] at hj
          rcases List.mem_append.mp hj with hj' | hj'
          · exact List.mem_append_left _ (List.mem_append_left _
              (List.mem_append_left _ (hs j hj')))
          · rw [List.mem_singleton] at hj'; subst hj'
            exact List.mem_append_right _ (by rw [if_pos hsm]; simp)
        · rw [if_neg hsm] at hj
          exact List.mem_append_left _ (List.mem_append_left _
            (List.mem_append_left _ (hs j hj)))
      · intro j hj
        by_cases hcm : name ∈ cLayers
        · rw [if_pos hcm] at hj
          rcases List.mem_append.mp hj with hj' | hj'
          · exact List.mem_append_left _ (List.mem_append_left _
              (List.mem_append_left _ (hc j hj')))
          · rw [List.mem_singleton] at hj'; subst hj'
            exact List.mem_append_left _ (List.mem_append_right _ (by rw [if_pos hcm]; simp))
        · rw [if_neg hcm] at hj
          exact List.mem_append_left _ (List.mem_append_left _
            (List.mem_append_left _ (hc j hj)))

/-- Claim C2, amended: whenever `get_style_model_and_loss` returns
with at least one probe recorded (one of the two loss collections is
nonempty), the returned pipeline's final stage is a probe — hence no
stage stands after the last probe. (As stated over every layer-name
set the claim is false: with no matching name the pipeline is cut to
the normalization stage alone, see the counterexample.) -/
theorem get_style_model_ends_with_probe (cnn : List Layer) (cLayers sLayers : List String)
    (model : List Stage) (sls cls : List ℕ)
    (hok : get_style_model_and_loss cnn cLayers sLayers = .ok (model, sls, cls))
    (hne : sls ≠ [] ∨ cls ≠ []) :
    ∃ p, model.getLast? = some p ∧ p.isProbe = true := by
  rw [get_style_model_and_loss] at hok
  rcases hb : buildLoop cLayers sLayers cnn 0 [Stage.norm] [] [] with e | ⟨m, s, c⟩ <;>
    rw [hb] at hok
  · exact absurd hok (by simp)
  · simp only [Except.ok.injEq, Prod.mk.injEq] at hok
    obtain ⟨rfl, rfl, rfl⟩ := hok
    obtain ⟨hsm, hcm⟩ := buildLoop_probes_mem cLayers sLayers cnn 0 [Stage.norm] [] []
      m s c hb (by simp) (by simp)
    have hex : ∃ st ∈ m, st.isProbe = true := by
      rcases hne with h | h
      · rcases s with _ | ⟨j, s'⟩
        · exact absurd rfl h
        · exact ⟨Stage.styleProbe j, hsm j (by simp), rfl⟩
      · rcases c with _ | ⟨j, c'⟩
        · exact absurd rfl h
        · exact ⟨Stage.contentProbe j, hcm j (by simp), rfl⟩
    exact truncateModel_getLast_isProbe m hex

/-- Counterexample for C2 as frozen: with layer-name sets that match
no stage, the returned pipeline is the normalization stage alone, and
its final stage is not a probe. -/
theorem get_style_model_last_not_probe_cex :
    get_style_model_and_loss [Layer.conv] [] [] = .ok ([Stage.norm], [], []) ∧
    ([Stage.norm] : List Stage).getLast? = some Stage.norm ∧
    Stage.norm.isProbe = false :=
  ⟨rfl, rfl, rfl⟩

/-- Witness for the amended C2 at a concrete network and layer sets. -/
theorem get_style_model_ends_with_probe_witness :
    ∃ p, ([Stage.norm, Stage.layer "conv_1" Layer.conv,
        Stage.contentProbe 1] : List Stage).getLast? = some p ∧ p.isProbe = true :=
  get_style_model_ends_with_probe [Layer.conv] ["conv_1"] []
    [Stage.norm, Stage.layer "conv_1" Layer.conv, Stage.contentProbe 1] [] [1]
    rfl (Or.inr (by simp))

/-- Helper: when every remaining layer is recognized and no assigned
name is a designated content or style layer, the walk appends only
plain (probe-free) stages and records nothing. -/
lemma buildLoop_no_match (cLayers sLayers : List String) :
    ∀ (rest : List Layer) (i : ℕ) (model : List Stage) (sls cls : List ℕ),
      (∀ l ∈ rest, l.recognized = true) →
      (∀ n ∈ walkNames i rest, n ∉ cLayers ∧ n ∉ sLayers) →
      ∃ extra : List Stage,
        buildLoop cLayers sLayers rest i model sls cls = .ok (model ++ extra, sls, cls) ∧
        ∀ st ∈ extra, st.isProbe = false := by
  intro rest
  induction rest with
  | nil =>
    intro i model sls cls _ _
    exact ⟨[], by rw [buildLoop, List.append_nil], by simp⟩
  | cons hd tl ih =>
    intro i model sls cls h1 h2
    have hrec : hd.recognized = true := h1 hd (List.mem_cons_self hd tl)
    obtain ⟨i', name, l', hcl⟩ : ∃ i' name l', classifyLayer i hd = some (i', name, l') := by
      cases hd with
      | conv => exact ⟨_, _, _, rfl⟩
      | relu inplace => exact ⟨_, _, _, rfl⟩
      | maxpool => exact ⟨_, _, _, rfl⟩
      | bn => exact ⟨_, _, _, rfl⟩
      | other s => simp [Layer.recognized] at hrec
    have hwalk : walkNames i (hd :: tl) = name :: walkNames i' tl := by
      simp only [walkNames, hcl]
    have hnc : name ∉ cLayers :=
      (h2 name (by rw [hwalk]; exact List.mem_cons_self name _)).1
    have hns : name ∉ sLayers :=
      (h2 name (by rw [hwalk]; exact List.mem_cons_self name _)).2
    obtain ⟨extra', hbl, hpf⟩ := ih i' (model ++ [Stage.layer name l']) sls cls
      (fun l hl => h1 l (List.mem_cons_of_mem hd hl))
      (fun n hn => h2 n (by rw [hwalk]; exact List.mem_cons_of_mem name hn))
    refine ⟨Stage.layer name l' :: extra', ?_, ?_⟩
    · rw [buildLoop_cons cLayers sLayers hd tl i model sls cls i' name l' hcl]
      simp only [if_neg hnc, if_neg hns, List.append_nil]
      rw [hbl, List.append_assoc, List.singleton_append]
    · intro st hst
      rcases List.mem_cons.mp hst with rfl | hst'
      · rfl
      · exact hpf st hst'

/-- Claim C9: when every layer of the network is recognized and no
stage name produced during the walk belongs to the content-layer or
style-layer set, `get_style_model_and_loss` returns without error a
pipeline truncated to exactly its first stage — the normalization
stage alone — together with two empty probe collections. -/
theorem get_style_model_no_match (cnn : List Layer) (cLayers sLayers : List String)
    (h1 : ∀ l ∈ cnn, l.recognized = true)
    (h2 : ∀ n ∈ walkNames 0 cnn, n ∉ cLayers ∧ n ∉ sLayers) :
    get_style_model_and_loss cnn cLayers sLayers = .ok ([Stage.norm], [], []) := by
  obtain ⟨extra, hbl, hpf⟩ :=
    buildLoop_no_match cLayers sLayers cnn 0 [Stage.norm] [] [] h1 h2
  have hno : ∀ st ∈ (Stage.norm :: extra), st.isProbe = false := by
    intro st hst
    rcases List.mem_cons.mp hst with rfl | hst'
    · rfl
    · exact hpf st hst'
  have htr : truncateModel (Stage.norm :: extra) = [Stage.norm] := by
    rw [truncateModel_no_probe _ hno]; rfl
  rw [get_style_model_and_loss, hbl]
  simp [htr]

/-- Witness for C9: a conv-relu network with layer sets that name only
deeper convolutions collapses to the bare normalization pipeline. -/
theorem get_style_model_no_match_witness :
    get_style_model_and_loss [Layer.conv, Layer.relu true] ["conv_4"] ["conv_5"] =
      .ok ([Stage.norm], [], []) :=
  get_style_model_no_match [Layer.conv, Layer.relu true] ["conv_4"] ["conv_5"]
    (by decide) (by decide)

/-- `input_img.clamp_(0, 1)` on a single pixel value. -/
def clamp01 (v : ℚ) : ℚ := max 0 (min 1 v)

/-- `input_img.clamp_(0, 1)` over the whole (flattened) image tensor. -/
def clampImg (img : List ℚ) : List ℚ := img.map clamp01

/-- Every pixel value lies in `[0, 1]`. -/
def bounded01 (xs : List ℚ) : Prop := ∀ v ∈ xs, 0 ≤ v ∧ v ≤ 1

/-- The mutable state shared between the outer loop and the optimizer
closure of `run_style_transfer` (main.py lines 166-197): the `run[0]`
iteration counter, the current `input_img` pixel tensor, and — for
specification purposes — the history of tensors handed to the
pipeline's forward pass (`model(input_img)`), newest first. -/
structure RunState where
  run : ℕ
  img : List ℚ
  fwds : List (List ℚ)

/-- One evaluation of `closure` (main.py lines 169-195) followed by
the optimizer's parameter update: clamp `input_img` into `[0, 1]`
(under `no_grad`), run the clamped tensor through the pipeline
(recorded in `fwds`), back-propagate, increment `run[0]`, and let
L-BFGS move `input_img` (the update is abstracted as the arbitrary
function `upd`, indexed by the evaluation counter). -/
def closureEval (upd : ℕ → List ℚ → List ℚ) (st : RunState) : RunState :=
  let clamped := clampImg st.img
  { run := st.run + 1, img := upd st.run clamped, fwds := clamped :: st.fwds }

/-- One `optimizer.step(closure)` call: L-BFGS evaluates the closure
`k ≥ 1` times (its inner iterations and line search), interleaving
parameter updates. -/
def optStep (upd : ℕ → List ℚ → List ℚ) : ℕ → RunState → RunState
  | 0, st => st
  | k + 1, st => optStep upd k (closureEval upd st)

/-- The outer `while run[0] <= num_steps` loop (main.py lines
168-197), fuel-indexed: each pass performs one `optimizer.step`
evaluating the closure `evals t` times. `none` marks fuel exhaustion
(never reached when every step evaluates the closure at least
once). -/
def outerLoop (numSteps : ℕ) (upd : ℕ → List ℚ → List ℚ) (evals : ℕ → ℕ) :
    ℕ → ℕ → RunState → Option RunState
  | 0, _, st => if st.run ≤ numSteps then none else some st
  | fuel + 1, t, st =>
    if st.run ≤ numSteps then
      outerLoop numSteps upd evals fuel (t + 1) (optStep upd (evals t) st)
    else some st

/-- `run_style_transfer` (main.py lines 156-202), with the pipeline
evaluation and the L-BFGS internals abstracted into `upd` (how one
closure evaluation moves `input_img`) and `evals` (how many times step
`t`'s `optimizer.step(closure)` evaluates the closure). Returns the
finally clamped `input_img`, the final `run[0]` counter, and the
history of forward-pass inputs. -/
def run_style_transfer (numSteps : ℕ) (img0 : List ℚ)
    (upd : ℕ → List ℚ → List ℚ) (evals : ℕ → ℕ) :
    Option (List ℚ × ℕ × List (List ℚ)) :=
  match outerLoop numSteps upd evals (numSteps + 1) 0 ⟨0, img0, []⟩ with
  | some st => some (clampImg st.img, st.run, st.fwds)
  | none => none

/-- Helper: clamping lands every pixel in `[0, 1]`. -/
lemma clampImg_bounded (img : List ℚ) : bounded01 (clampImg img) := by
  intro v hv
  obtain ⟨w, _, rfl⟩ := List.mem_map.mp hv
  refine ⟨le_max_left 0 _, ?_⟩
  exact max_le zero_le_one (min_le_left 1 w)

/-- Helper: one optimizer step advances the counter by exactly its
closure-evaluation count. -/
lemma optStep_run (upd : ℕ → List ℚ → List ℚ) :
    ∀ (k : ℕ) (st : RunState), (optStep upd k st).run = st.run + k := by
  intro k
  induction k with
  | zero => intro st; rfl
  | succ k ih =>
    intro st
    show (optStep upd k (closureEval upd st)).run = st.run + (k + 1)
    rw [ih]
    show st.run + 1 + k = st.run + (k + 1)
    omega

/-- Helper: every forward-pass input recorded by an optimizer step is
a clamped tensor, hence bounded. -/
lemma optStep_fwds (upd : ℕ → List ℚ → List ℚ) :
    ∀ (k : ℕ) (st : RunState), (∀ xs ∈ st.fwds, bounded01 xs) →
      ∀ xs ∈ (optStep upd k st).fwds, bounded01 xs := by
  intro k
  induction k with
  | zero => intro st h; exact h
  | succ k ih =>
    intro st h
    refine ih (closureEval upd st) ?_
    intro xs hxs
    rcases List.mem_cons.mp hxs with rfl | hxs'
    · exact clampImg_bounded _
    · exact h xs hxs'

/-- Helper: with at least one closure evaluation per step and enough
fuel, the outer loop terminates with counter strictly above
`numSteps`, and every recorded forward input stays bounded. -/
lemma outerLoop_total (numSteps : ℕ) (upd : ℕ → List ℚ → List ℚ) (evals : ℕ → ℕ)
    (hev : ∀ t, 1 ≤ evals t) :
    ∀ (fuel t : ℕ) (st : RunState), numSteps < st.run + fuel →
      (∀ xs ∈ st.fwds, bounded01 xs) →
      ∃ st', outerLoop numSteps upd evals fuel t st = some st' ∧
        numSteps < st'.run ∧ ∀ xs ∈ st'.fwds, bounded01 xs := by
  intro fuel
  induction fuel with
  | zero =>
    intro t st hfuel hb
    have hle : ¬st.run ≤ numSteps := by omega
    exact ⟨st, by rw [outerLoop, if_neg hle], by omega, hb⟩
  | succ fuel ih =>
    intro t st hfuel hb
    by_cases hle : st.run ≤ numSteps
    · have hrun := optStep_run upd (evals t) st
      have h1 := hev t
      obtain ⟨st', hst', hgt, hb'⟩ := ih (t + 1) (optStep upd (evals t) st)
        (by omega) (optStep_fwds upd (evals t) st hb)
      exact ⟨st', by rw [outerLoop, if_pos hle]; exact hst', hgt, hb'⟩
    · exact ⟨st, by rw [outerLoop, if_neg hle], by omega, hb⟩

/-- Helper: when every step evaluates the closure exactly once, the
loop exits with the counter exactly `numSteps + 1`. -/
lemma outerLoop_exact_count (numSteps : ℕ) (upd : ℕ → List ℚ → List ℚ)
    (evals : ℕ → ℕ) (hev : ∀ t, evals t = 1) :
    ∀ (fuel t : ℕ) (st : RunState), st.run ≤ numSteps + 1 → numSteps < st.run + fuel →
      ∃ st', outerLoop numSteps upd evals fuel t st = some st' ∧
        st'.run = numSteps + 1 := by
  intro fuel
  induction fuel with
  | zero =>
    intro t st hub hfuel
    have hle : ¬st.run ≤ numSteps := by omega
    exact ⟨st, by rw [outerLoop, if_neg hle], by omega⟩
  | succ fuel ih =>
    intro t st hub hfuel
    by_cases hle : st.run ≤ numSteps
    · have hrun := optStep_run upd (evals t) st
      have h1 := hev t
      obtain ⟨st', hst', hc⟩ := ih (t + 1) (optStep upd (evals t) st)
        (by omega) (by omega)
      exact ⟨st', by rw [outerLoop, if_pos hle]; exact hst', hc⟩
    · exact ⟨st, by rw [outerLoop, if_neg hle], by omega⟩

/-- Claim C1, amended: over a whole run of `run_style_transfer` the
iteration counter `run[0]` is incremented once per closure evaluation
and ends strictly above `num_steps` (the outer loop's only exit
condition is `run[0] > num_steps`, independent of the losses), so at
least `num_steps + 1` increments occur; the count is exactly
`num_steps + 1` when every `optimizer.step` evaluates the closure
exactly once. (As frozen — exactly `num_steps + 1` for every run — the
claim fails: L-BFGS may evaluate the closure several times per step,
see the counterexample.) -/
theorem run_style_transfer_counter (numSteps : ℕ) (img0 : List ℚ)
    (upd : ℕ → List ℚ → List ℚ) (evals : ℕ → ℕ) (hev : ∀ t, 1 ≤ evals t) :
    ∃ img c tr, run_style_transfer numSteps img0 upd evals = some (img, c, tr) ∧
      numSteps < c ∧ ((∀ t, evals t = 1) → c = numSteps + 1) := by
  obtain ⟨st', hloop, hgt, _⟩ := outerLoop_total numSteps upd evals hev (numSteps + 1) 0
    ⟨0, img0, []⟩ (by show numSteps < 0 + (numSteps + 1); omega) (by simp)
  refine ⟨clampImg st'.img, st'.run, st'.fwds, ?_, hgt, ?_⟩
  · rw [run_style_transfer, hloop]
  · intro h1
    obtain ⟨st'', hloop', hrun⟩ := outerLoop_exact_count numSteps upd evals h1
      (numSteps + 1) 0 ⟨0, img0, []⟩ (by show (0 : ℕ) ≤ numSteps + 1; omega)
      (by show numSteps < 0 + (numSteps + 1); omega)
    have he : st' = st'' := Option.some.inj (hloop.symm.trans hloop')
    rw [he]
    exact hrun

/-- Counterexample for C1 as frozen: with `num_steps = 2` and an
optimizer step that evaluates the closure twice, the counter is
incremented `4` times, not `num_steps + 1 = 3`. -/
theorem run_style_transfer_counter_cex :
    run_style_transfer 2 [] (fun _ (x : List ℚ) => x) (fun _ => 2) =
      some ([], 4, [[], [], [], []]) ∧ (4 : ℕ) ≠ 2 + 1 :=
  ⟨rfl, by decide⟩

/-- Witness for the amended C1: one closure evaluation per step gives
exactly `num_steps + 1` increments. -/
theorem run_style_transfer_counter_witness :
    ∃ img c tr,
      run_style_transfer 3 [] (fun _ (x : List ℚ) => x) (fun _ => 1) = some (img, c, tr) ∧
      3 < c ∧ ((∀ t, (fun _ : ℕ => 1) t = 1) → c = 3 + 1) :=
  run_style_transfer_counter 3 [] (fun _ x => x) (fun _ => 1) (fun _ => le_refl 1)

/-- Claim C4: in every run of `run_style_transfer` the output tensor
is clamped into `[0, 1]` before each forward evaluation of the
pipeline (every tensor in the forward history is bounded) and once
more after the loop terminates, so every pixel value `v` of the
returned tensor satisfies `0 ≤ v ≤ 1`. -/
theorem run_style_transfer_clamped (numSteps : ℕ) (img0 : List ℚ)
    (upd : ℕ → List ℚ → List ℚ) (evals : ℕ → ℕ) (hev : ∀ t, 1 ≤ evals t) :
    ∃ img c tr, run_style_transfer numSteps img0 upd evals = some (img, c, tr) ∧
      bounded01 img ∧ ∀ xs ∈ tr, bounded01 xs := by
  obtain ⟨st', hloop, _, hb⟩ := outerLoop_total numSteps upd evals hev (numSteps + 1) 0
    ⟨0, img0, []⟩ (by show numSteps < 0 + (numSteps + 1); omega) (by simp)
  exact ⟨clampImg st'.img, st'.run, st'.fwds, by rw [run_style_transfer, hloop],
    clampImg_bounded _, hb⟩

/-- Witness for C4: a run starting from an out-of-range tensor, with
an update that moves pixels out of range, still returns a tensor whose
pixels all lie in `[0, 1]`. -/
theorem run_style_transfer_clamped_witness :
    ∃ img c tr, run_style_transfer 1 [3, -2] (fun _ _ => [7, -5]) (fun _ => 1) =
      some (img, c, tr) ∧ bounded01 img ∧ ∀ xs ∈ tr, bounded01 xs :=
  run_style_transfer_clamped 1 [3, -2] (fun _ _ => [7, -5]) (fun _ => 1)
    (fun _ => le_refl 1)

/-- A leaf tensor of the autograd graph as backward sees it: its
`requires_grad` flag and its accumulated `.grad`. Pretrained VGG-19
weights load with `requires_grad = True` and `grad = 0` (no gradient
accumulated yet). -/
structure PTensor where
  requiresGrad : Bool
  grad : ℚ

/-- An `nn.Module` as far as attribute assignment is concerned: its
registered parameters and its plain instance-attribute dictionary. -/
structure SeqModule where
  params : List PTensor
  attrDict : List (String × Bool)

/-- `nn.Module.__setattr__` for a plain boolean value (the semantics
of `model.requires_grad = False`, main.py line 162): the value is not
a `Parameter`, `Module` or buffer, so it is stored in the instance
dictionary; the registered parameters — and in particular their
`requires_grad` flags — are untouched. (Freezing the weights would
instead be `model.requires_grad_(False)`, which flips every
parameter's flag.) -/
def SeqModule.setattrBool (m : SeqModule) (name : String) (v : Bool) : SeqModule :=
  { m with attrDict := (name, v) :: m.attrDict }

/-- `loss.backward()` (main.py line 187) as it acts on the graph's
leaf tensors: every leaf whose `requires_grad` flag is set accumulates
its gradient contribution into `.grad`; a leaf with the flag unset
receives nothing. `contribs` holds the gradient of the total loss with
respect to each parameter in this pass, in parameter order. -/
def backwardAccum (m : SeqModule) (contribs : List ℚ) : SeqModule :=
  { m with
    params := List.zipWith (fun p g =>
      if p.requiresGrad then { p with grad := p.grad + g } else p) m.params contribs }

/-- Claim C3 evaluated at the failing input: a pipeline holding one
pretrained conv weight (`requires_grad = True`, `grad = 0`), frozen
the way main.py line 162 does it (`model.requires_grad = False`), then
back-propagated with a unit gradient contribution. The weight's flag
is still `True` and its accumulated gradient is `1 ≠ 0`: the backward
pass does deposit gradient on a pipeline weight, against the claim
that the pipeline is frozen and accumulates no gradient. -/
theorem pipeline_weight_receives_grad :
    ((backwardAccum ((SeqModule.mk [⟨true, 0⟩] []).setattrBool "requires_grad" false)
        [1]).params.map PTensor.grad = [1] ∧
      (backwardAccum ((SeqModule.mk [⟨true, 0⟩] []).setattrBool "requires_grad" false)
        [1]).params.map PTensor.requiresGrad = [true]) ∧
    (1 : ℚ) ≠ 0 :=
  ⟨⟨by simp [backwardAccum, SeqModule.setattrBool],
    by simp [backwardAccum, SeqModule.setattrBool]⟩, by norm_num⟩
